import Mathlib

/-!
Shallow embedding of the core of `oss-metrics-kit` (Python), covering:

* `src/ossmk/core/services/score.py` — `RuleSet`, `_default_rules`, `score_events`
* `src/ossmk/utils/__init__.py`      — `is_bot_login`, `http_get` (tenacity retry),
                                        `parse_since`
* `src/ossmk/providers/github/client.py` — `_cached_get_json`,
                                        `fetch_repo_issues_and_prs`, `fetch_repo_commits`
* `src/ossmk/storage/sqlite.py`      — `SQLiteStorage.save_events`

Python floats are modelled as `ℚ` (every weight literal in the source is a
short decimal; no transcendental function is ever actually applied on the
executed paths — see the note on the dead decay block below).  Python
`datetime` values (always timezone-aware in this data model) are modelled as
an absolute instant in seconds plus the carried zone offset in minutes.
Python dicts that the code iterates in insertion order are modelled as
association lists with update-or-append semantics.
-/

namespace OssMK

/-- A timezone-aware Python `datetime`: the absolute instant (seconds since
the epoch, UTC) together with the UTC offset (minutes) of the `tzinfo` it
carries.  `d.date()` in Python truncates the *wall-clock* reading, i.e. the
instant shifted by the carried offset. -/
structure PyDatetime where
  utcSeconds : Int
  tzOffsetMinutes : Int
deriving DecidableEq, Repr

/-- `ossmk.core.models.ContributionEvent` (pydantic model).  `kind` is the
string value of the `EventKind` enum (`"commit" | "pr" | "review" | "issue"`);
`score_events` reads `ev.kind.value`. -/
structure ContributionEvent where
  id : String
  kind : String
  repo_id : String
  user_id : String
  created_at : PyDatetime
  lines_added : Int := 0
  lines_removed : Int := 0
deriving DecidableEq, Repr

/-- One entry of `RuleSet.dimensions`: the dict
`{kinds: set[str], weight: float, weights_by_kind: dict[str,float]}`
(`clip_per_user_day` per-dimension overrides are parsed by `load_rules` but
never read by `score_events`, so they are omitted). -/
structure DimSpec where
  kinds : List String
  weight : ℚ := 1
  weights_by_kind : List (String × ℚ) := []
deriving DecidableEq, Repr

/-- `ossmk.core.services.score.RuleSet`.  `dimensions` keeps dict insertion
order; `fairness = none` models Python `None` (read as `{}`). -/
structure RuleSet where
  dimensions : List (String × DimSpec)
  fairness : Option (List (String × Nat)) := none
  decay_half_life_days : Option ℚ := none
  decay_mode : Option String := none
  decay_window_days : Option ℚ := none
deriving DecidableEq, Repr

/-- `_default_rules()` from `score.py`. -/
def defaultRules : RuleSet :=
  { dimensions :=
      [ ("code", { kinds := ["pr", "commit"], weight := 1,
                   weights_by_kind := [("commit", 4/5), ("pr", 1)] })
      , ("review", { kinds := ["review"], weight := 3/5 })
      , ("community", { kinds := ["issue"], weight := 3/10 }) ]
    fairness := some [("commit", 20), ("pr", 5), ("review", 50), ("issue", 10)]
    decay_half_life_days := none }

/-- The environment-sourced knobs read inside `score_events`:
`OSSMK_SELF_REPO_PENALTY`, `OSSMK_USER_ORGS` (already split, stripped and
lower-cased, as the source does), `OSSMK_ORG_REPO_PENALTY`.  The decay
environment variables (`OSSMK_DECAY_*`) feed only `lam`, `decay_mode` and
`window_days`, which are read exclusively inside the dead decay block (see
`contribWeight` below), so they are not modelled. -/
structure ScoreEnv where
  self_repo_penalty : ℚ := 1
  user_orgs : List String := []
  org_repo_penalty : ℚ := 1
deriving DecidableEq, Repr

/-- Default environment: all `OSSMK_*` penalty variables unset. -/
def defaultEnv : ScoreEnv := {}

/-- First-match lookup in an association list (Python `dict.get`). -/
def alistLookup {α : Type} (l : List (String × α)) (k : String) : Option α :=
  (l.find? (fun p => p.1 = k)).map Prod.snd

/-- The owner extraction of `score_events`:
`host, owner, _name = (ev.repo_id or "///").split("/", 2)` inside
`try/except`, with `owner = ""` when unpacking fails (fewer than two
slashes).  `split("/", 2)` yields exactly three parts iff the full split
has at least three, and then the middle part is the second field of the full
split. -/
def ownerOf (repoId : String) : String :=
  let parts := (if repoId = "" then "///" else repoId).splitOn "/"
  if 3 ≤ parts.length then (parts.get? 1).getD "" else ""

/-- The day key `score_events` derives from `e.created_at`:
`str(getattr(day, "date", lambda: None)() or ...)`.  For a (timezone-aware)
`datetime`, `day.date()` is the calendar date of the *wall-clock* reading in
the carried zone; `str` of a `date` is its `YYYY-MM-DD` rendering, which is
injective, so the key is modelled as the wall-clock day ordinal. -/
def dayKey (dt : PyDatetime) : Int :=
  (dt.utcSeconds + dt.tzOffsetMinutes * 60).fdiv 86400

/-- The per-event, per-dimension weight computed in the inner loop of
`score_events`:

* `w = spec.get("weights_by_kind", {}).get(kind, spec.get("weight", 1.0))`;
* self-repo penalty when `self_repo_penalty < 1.0` and the repo owner equals
  the (non-empty) user id case-insensitively;
* org penalty when `user_orgs` is non-empty and contains the lower-cased
  owner.

The decay block (lines 125–139 of `score.py`) is intentionally absent: it
evaluates `datetime.now(timezone.utc)` but `score.py` never imports
`datetime` or `timezone`, so the block raises `NameError` on every event
that has a `created_at`, the surrounding `except Exception: pass` swallows
it, and `w` reaches the accumulation line unmodified (and `window` mode
never executes its `continue`).  Consequently no decay parameter can affect
the result. -/
def contribWeight (env : ScoreEnv) (spec : DimSpec) (e : ContributionEvent) : ℚ :=
  let w0 := (alistLookup spec.weights_by_kind e.kind).getD spec.weight
  let owner := ownerOf e.repo_id
  let w1 :=
    if env.self_repo_penalty < 1 ∧ owner ≠ "" ∧ e.user_id ≠ "" ∧
        owner.toLower = e.user_id.toLower
    then w0 * env.self_repo_penalty else w0
  if env.user_orgs ≠ [] ∧ owner ≠ "" ∧ owner.toLower ∈ env.user_orgs
  then w1 * env.org_repo_penalty else w1

/-- `scores[user][dim] += w` on the inner association list (defaultdict:
update the first occurrence, else append a fresh entry). -/
def addDim (l : List (String × ℚ)) (d : String) (w : ℚ) : List (String × ℚ) :=
  match l with
  | [] => [(d, w)]
  | (d', v) :: rest =>
    if d' = d then (d', v + w) :: rest else (d', v) :: addDim rest d w

/-- `scores[user][dim] += w` on the outer association list. -/
def addScore (sc : List (String × List (String × ℚ))) (u d : String) (w : ℚ) :
    List (String × List (String × ℚ)) :=
  match sc with
  | [] => [(u, [(d, w)])]
  | (u', dims) :: rest =>
    if u' = u then (u', addDim dims d w) :: rest
    else (u', dims) :: addScore rest u d w

/-- The `for dim, spec in rules.dimensions.items():` loop body for one event
(once the event survived clipping). -/
def accumDims (rules : RuleSet) (env : ScoreEnv)
    (sc : List (String × List (String × ℚ))) (e : ContributionEvent) :
    List (String × List (String × ℚ)) :=
  rules.dimensions.foldl
    (fun sc p =>
      if e.kind ∈ p.2.kinds then addScore sc e.user_id p.1 (contribWeight env p.2 e)
      else sc)
    sc

/-- The grouping key of the fairness counters: `(ev.user_id, kind, day_key)`. -/
def keyOf (e : ContributionEvent) : String × String × Int :=
  (e.user_id, e.kind, dayKey e.created_at)

/-- The fairness counters dict `counters[(user, kind, day)] → int`
(`defaultdict(int)`: a missing key reads as `0`). -/
def Counters : Type := List ((String × String × Int) × Nat)

/-- Read a counter (missing key = 0). -/
def getCounter (cs : Counters) (k : String × String × Int) : Nat :=
  ((cs.find? (fun p => p.1 = k)).map Prod.snd).getD 0

/-- Write a counter (update first occurrence, else append). -/
def setCounter (cs : Counters) (k : String × String × Int) (v : Nat) : Counters :=
  match cs with
  | [] => [(k, v)]
  | (k', v') :: rest =>
    if k' = k then (k', v) :: rest else (k', v') :: setCounter rest k v

/-- Running state of the single pass: the nested `scores` dict and the
`counters` defaultdict. -/
structure ScoreState where
  scores : List (String × List (String × ℚ))
  counters : Counters

/-- One iteration of the event loop of `score_events`.  `day_key` is the
`str` of a `date` and hence never empty, so the guard
`if day_key and kind in fair_default` reduces to the fairness-membership
test.  The counter is incremented first; an event beyond the cap is
dropped before any dimension accumulates. -/
def processEvent (rules : RuleSet) (env : ScoreEnv) (st : ScoreState)
    (e : ContributionEvent) : ScoreState :=
  let fair := rules.fairness.getD []
  match alistLookup fair e.kind with
  | some cap =>
    let k := keyOf e
    let c := getCounter st.counters k + 1
    let counters' := setCounter st.counters k c
    if cap < c then { st with counters := counters' }
    else { scores := accumDims rules env st.scores e, counters := counters' }
  | none => { st with scores := accumDims rules env st.scores e }

/-- One flattened output record
`{"user_id": u, "dimension": d, "value": v, "window": "all"}`. -/
structure ScoreRow where
  user_id : String
  dimension : String
  value : ℚ
  window : String := "all"
deriving DecidableEq, Repr

/-- The flattening loop at the end of `score_events` (dict iteration is
insertion order). -/
def flattenScores (sc : List (String × List (String × ℚ))) : List ScoreRow :=
  sc.flatMap (fun p => p.2.map (fun q => ⟨p.1, q.1, q.2, "all"⟩))

/-- `score_events(events, rules)` with the environment knobs passed
explicitly. -/
def score_events (rules : RuleSet) (env : ScoreEnv)
    (events : List ContributionEvent) : List ScoreRow :=
  flattenScores (events.foldl (processEvent rules env) ⟨[], []⟩).scores

/-- Total value the output rows assign to `(user, dimension)` (the engine
emits at most one row per pair, so this is that row's value, or `0`). -/
def valueOf (rows : List ScoreRow) (u d : String) : ℚ :=
  ((rows.filter (fun r => r.user_id = u ∧ r.dimension = d)).map ScoreRow.value).sum

/-! ## `ossmk.utils.is_bot_login` -/

/-- Python `"needle" in haystack` for a non-empty needle, via `splitOn`. -/
def strContains (haystack needle : String) : Bool :=
  2 ≤ (haystack.splitOn needle).length

/-- `is_bot_login(login)` from `src/ossmk/utils/__init__.py` (lines 183–189).
`None` and `""` are falsy, so they return `False`. -/
def is_bot_login (login : Option String) : Bool :=
  match login with
  | none => false
  | some l =>
    if l = "" then false
    else
      let low := l.toLower
      if low = "dependabot" ∨ low = "github-actions" ∨ low = "renovate[bot]" ∨
          low = "renovate" then true
      else low.endsWith "[bot]" || low.endsWith "-bot" || strContains low "[bot]"

/-! ## GitHub fetchers (`providers/github/client.py`)

The HTTP/pagination layer is abstracted away: a fetcher is modelled on the
cross-page concatenation of the JSON items the forge returned, which is
exactly what the pagination loop iterates over.  Only the fields the mapping
code reads are modelled. -/

/-- Python `a or b` for an optional string (`None` and `""` are falsy). -/
def pyOr (a : Option String) (b : String) : String :=
  match a with
  | some s => if s = "" then b else s
  | none => b

/-- One element of the `/issues?state=all` listing:
`"pull_request" in item`, `item["id"]`, `item.get("user").get("login")`,
`item["created_at"]` (already parsed by `_parse_dt`). -/
structure IssueItem where
  id : String
  hasPullRequest : Bool
  userLogin : Option String
  createdAt : PyDatetime
deriving DecidableEq, Repr

/-- `GitHubProvider.fetch_repo_issues_and_prs` (lines 86–113): maps every
item of every page to a `ContributionEvent`.  Note: this fetcher applies no
bot filtering (`is_bot_login` is imported but not consulted here, unlike in
`fetch_repo_commits` and `fetch_repo_pr_reviews`), and `excludeBots`
(`OSSMK_EXCLUDE_BOTS`) is therefore not even a parameter. -/
def fetch_repo_issues_and_prs (owner name : String) (items : List IssueItem) :
    List ContributionEvent :=
  items.map fun it =>
    { id := it.id
      kind := if it.hasPullRequest then "pr" else "issue"
      repo_id := "github.com/" ++ owner ++ "/" ++ name
      user_id := pyOr it.userLogin "unknown"
      created_at := it.createdAt }

/-- One element of the `/commits` listing: `c["sha"]`,
`c.get("author").get("login")`, `c.get("committer").get("login")`,
`c["commit"]["author"]["date"]` (parsed). -/
structure CommitItem where
  sha : String
  authorLogin : Option String
  committerLogin : Option String
  commitAuthorDate : PyDatetime
deriving DecidableEq, Repr

/-- `GitHubProvider.fetch_repo_commits` (lines 115–156), event-mapping part:
`author = author.login or committer.login or "unknown"`; with
`OSSMK_EXCLUDE_BOTS == "1"` (`excludeBots = true`) a commit whose author
satisfies `is_bot_login` is skipped. -/
def fetch_repo_commits (owner name : String) (excludeBots : Bool)
    (items : List CommitItem) : List ContributionEvent :=
  items.filterMap fun c =>
    let author := pyOr c.authorLogin (pyOr c.committerLogin "unknown")
    if excludeBots ∧ is_bot_login (some author) then none
    else some
      { id := c.sha
        kind := "commit"
        repo_id := "github.com/" ++ owner ++ "/" ++ name
        user_id := author
        created_at := c.commitAuthorDate }

/-! ## `http_get` and its tenacity retry policy (`utils/__init__.py` 113–120)

`http_get` performs `client.get(url, headers)` under
`@retry(reraise=True, stop=stop_after_attempt(5),
        wait=wait_exponential(multiplier=1, min=1, max=10),
        retry=retry_if_exception_type(httpx.HTTPError))`.
An attempt either returns an `httpx.Response` of some status code (httpx
raises no exception for any status by itself) or raises an exception, which
is retried iff it is an `httpx.HTTPError`.  The wire is modelled as a
function from the 1-based attempt number to the attempt's outcome. -/

/-- Outcome of one underlying `client.get` call: a response with a status
code, or a raised exception (`isHttpError` = it is an `httpx.HTTPError`). -/
inductive AttemptOutcome where
  | returns (status : Nat)
  | raises (isHttpError : Bool)
deriving DecidableEq, Repr

/-- Result of the retrying `http_get`: the response returned, or the
exception re-raised; in both cases with the number of attempts made and the
list of backoff waits (seconds) slept between attempts. -/
inductive RetryResult where
  | ok (status : Nat) (attempts : Nat) (waits : List ℚ)
  | failed (isHttpError : Bool) (attempts : Nat) (waits : List ℚ)
deriving DecidableEq, Repr

/-- tenacity `wait_exponential(multiplier=1, min=1, max=10)` after failed
attempt number `n`: `max(min, min(multiplier * 2^(n-1), max))`. -/
def backoffWait (n : Nat) : ℚ := max 1 (min ((2 : ℚ) ^ (n - 1)) 10)

/-- The retry loop: attempt number `k`, `remaining` attempts allowed
(including the current one), accumulated waits in reverse. -/
def tenacityGo (outcomes : Nat → AttemptOutcome) :
    Nat → Nat → List ℚ → RetryResult
  | _, 0, ws => .failed true 0 ws.reverse  -- unreachable: called with remaining ≥ 1
  | k, remaining + 1, ws =>
    match outcomes k with
    | .returns s => .ok s k ws.reverse
    | .raises http =>
      if http ∧ 0 < remaining then
        tenacityGo outcomes (k + 1) remaining (backoffWait k :: ws)
      else .failed http k ws.reverse

/-- `http_get(client, url, headers)` under the retry decorator, as a function
of the wire behaviour. -/
def http_get (outcomes : Nat → AttemptOutcome) : RetryResult :=
  tenacityGo outcomes 1 5 []

/-! ## HTTP cache and `_cached_get_json` -/

/-- A row of the `http_cache` table (`storage/sqlite.py`, `HttpCache`). -/
structure CacheEntry where
  etag : Option String
  last_modified : Option String
  body : String
  fetched_at : String
deriving DecidableEq, Repr

/-- The cache keyed by URL; `HttpCache.set` is `REPLACE INTO` =
update-or-insert. -/
def HttpCacheState : Type := List (String × CacheEntry)

/-- `HttpCache.get(url)`. -/
def cacheGet (c : HttpCacheState) (url : String) : Option CacheEntry :=
  (c.find? (fun p => p.1 = url)).map Prod.snd

/-- `HttpCache.set(url, etag, last_modified, body, fetched_at)`. -/
def cacheSet (c : HttpCacheState) (url : String) (e : CacheEntry) : HttpCacheState :=
  match c with
  | [] => [(url, e)]
  | (u, e') :: rest =>
    if u = url then (u, e) :: rest else (u, e') :: cacheSet rest url e

/-- A wire response as `_cached_get_json` reads it: status code, body text,
and the `ETag`, `Last-Modified`, `Link` headers. -/
structure HttpResponse where
  status : Nat
  body : String
  etag : Option String := none
  lastModified : Option String := none
  link : Option String := none
deriving DecidableEq, Repr

/-- `GitHubProvider._cached_get_json(client, url)` (client.py lines 46–64)
for one URL.  `server` models the upstream: the response as a function of the
`If-None-Match` header the fetcher attaches.  Returns the header it sent and
either the body text it would `json.loads` together with the updated cache,
or the status code on which `raise_for_status` raised (httpx raises for any
non-2xx status reached there; a 304 reaches it only when there was no cached
entry).  The `If-None-Match` header is attached iff the cached entry has a
truthy (non-`None`, non-empty) `etag`. -/
def cached_get_json (server : Option String → HttpResponse)
    (cache : HttpCacheState) (url now : String) :
    Option String × Except Nat (String × HttpCacheState) :=
  let cached := cacheGet cache url
  let ifNoneMatch : Option String :=
    match cached with
    | some c => match c.etag with
      | some e => if e = "" then none else some e
      | none => none
    | none => none
  let resp := server ifNoneMatch
  if resp.status = 304 ∧ cached.isSome then
    (ifNoneMatch, .ok ((cached.map CacheEntry.body).getD "", cache))
  else if resp.status < 200 ∨ 300 ≤ resp.status then
    (ifNoneMatch, .error resp.status)
  else
    (ifNoneMatch,
      .ok (resp.body,
        cacheSet cache url
          ⟨resp.etag, resp.lastModified, resp.body, now⟩))

/-! ## `SQLiteStorage.save_events` (`storage/sqlite.py` 108–132) -/

/-- A stored row of `ossmk_events`.  `created_at` is stored as
`str(e.created_at)`, which is injective on aware datetimes, so the datetime
value itself stands for the stored text. -/
structure EventRow where
  id : String
  kind : String
  repo_id : String
  user_id : String
  created_at : PyDatetime
  lines_added : Int
  lines_removed : Int
  source_host : String
deriving DecidableEq, Repr

/-- The tuple built for each event in `save_events`. -/
def rowOf (e : ContributionEvent) : EventRow :=
  ⟨e.id, e.kind, e.repo_id, e.user_id, e.created_at, e.lines_added,
    e.lines_removed, "github.com"⟩

/-- `INSERT OR IGNORE INTO ossmk_events ... VALUES (...)`: the row is
appended iff no stored row has its primary key `id`. -/
def insertIgnore (db : List EventRow) (r : EventRow) : List EventRow :=
  if db.any (fun r' => r'.id = r.id) then db else db ++ [r]

/-- `SQLiteStorage.save_events(events)`: executes the insert for every row
and returns `len(rows)` (`0` for an empty iterable — the early return). -/
def save_events (db : List EventRow) (events : List ContributionEvent) :
    List EventRow × Nat :=
  let rows := events.map rowOf
  (rows.foldl insertIgnore db, rows.length)

/-! ## `parse_since` (`utils/__init__.py` 138–166) -/

/-- A `dateutil.parser.isoparse` result: the wall-clock reading in seconds
and the zone offset in minutes when the input carried one (`None` for a
naive timestamp). -/
structure IsoDt where
  wallSeconds : Int
  tzOffsetMinutes : Option Int
deriving DecidableEq, Repr

/-- What `parse_since` returns: `None` for falsy input, an instant
(rendered by `.isoformat()`, injective, so the instant stands for the
string), or the lower-cased stripped input verbatim when unparseable. -/
inductive SinceResult where
  | none
  | instant (utcSeconds : Int)
  | verbatim (s : String)
deriving DecidableEq, Repr

/-- `parse_since(since, max_days=180)`.  `isoParse` models
`dateutil_parser.isoparse` on the lower-cased, stripped input (`none` =
raises).  `nowSeconds` is `datetime.now(UTC)` in seconds.  Relative `NNNd` /
`NNNh` inputs subtract from now and return immediately — the `max_days`
clamp sits only on the ISO branch.  A naive ISO timestamp gets
`tzinfo=UTC`. -/
def parse_since (isoParse : String → Option IsoDt) (nowSeconds : Int)
    (since : Option String) (max_days : Option Nat := some 180) : SinceResult :=
  match since with
  | Option.none => .none
  | some raw =>
    if raw = "" then .none
    else
      let s := raw.trim.toLower
      let body := s.dropRight 1
      if s.endsWith "d" ∧ body ≠ "" ∧ body.all Char.isDigit then
        .instant (nowSeconds - (body.toNat?.getD 0 : Int) * 86400)
      else if s.endsWith "h" ∧ body ≠ "" ∧ body.all Char.isDigit then
        .instant (nowSeconds - (body.toNat?.getD 0 : Int) * 3600)
      else
        match isoParse s with
        | some dt =>
          let t := dt.wallSeconds - (dt.tzOffsetMinutes.getD 0) * 60
          match max_days with
          | some m =>
            let earliest := nowSeconds - (m : Int) * 86400
            .instant (if t < earliest then earliest else t)
          | Option.none => .instant t
        | Option.none => .verbatim s

/-! ## Specification-side helpers for the clipping analysis

These are not embeddings of further source code; they are the vocabulary in
which the clipping behaviour of `score_events` is characterised. -/

/-- The events that survive daily clipping, computed by replaying the
counters: an event whose kind has a global cap is kept iff its (1-based)
occurrence index within its `(user, kind, day)` group does not exceed the
cap; events of uncapped kinds are always kept.  `dayOf` is the day
derivation (the engine's `dayKey ∘ created_at`, or the UTC day). -/
def keptAux (rules : RuleSet) (dayOf : ContributionEvent → Int) :
    List ContributionEvent → Counters → List ContributionEvent
  | [], _ => []
  | e :: rest, cs =>
    match alistLookup (rules.fairness.getD []) e.kind with
    | some cap =>
      let k := (e.user_id, e.kind, dayOf e)
      let c := getCounter cs k + 1
      let cs' := setCounter cs k c
      if cap < c then keptAux rules dayOf rest cs'
      else e :: keptAux rules dayOf rest cs'
    | none => e :: keptAux rules dayOf rest cs

/-- The clip-surviving prefixes of each `(user, kind, day)` group, from
fresh counters. -/
def keptEvents (rules : RuleSet) (dayOf : ContributionEvent → Int)
    (l : List ContributionEvent) : List ContributionEvent :=
  keptAux rules dayOf l []

/-- The day derivation the engine actually uses (carried-zone calendar
day). -/
def engineDay (e : ContributionEvent) : Int := dayKey e.created_at

/-- The UTC calendar day of the event's instant. -/
def utcDay (e : ContributionEvent) : Int := e.created_at.utcSeconds.fdiv 86400

/-- The accumulation pass with no clipping at all (every event
accumulates). -/
def score_events_noclip (rules : RuleSet) (env : ScoreEnv)
    (events : List ContributionEvent) : List ScoreRow :=
  flattenScores (events.foldl (accumDims rules env) [])

/-- The counter key an event consumes under a day derivation. -/
def keyBy (dayOf : ContributionEvent → Int) (e : ContributionEvent) :
    String × String × Int :=
  (e.user_id, e.kind, dayOf e)

/-- What one event adds to the cell `(u, d)` when it accumulates, summed
over the dimension list (a dict, hence no duplicate names in practice). -/
def dimContrib (env : ScoreEnv) (e : ContributionEvent) (d : String) :
    List (String × DimSpec) → ℚ
  | [] => 0
  | p :: rest =>
    (if p.1 = d ∧ e.kind ∈ p.2.kinds then contribWeight env p.2 e else 0) +
      dimContrib env e d rest

/-- Total contribution of one accumulated event to the cell `(u, d)`. -/
def contribOfEvent (rules : RuleSet) (env : ScoreEnv) (e : ContributionEvent)
    (u d : String) : ℚ :=
  if e.user_id = u then dimContrib env e d rules.dimensions else 0

/-- The per-kind contribution to dimension `d` when the penalty branches are
inactive (weights depend only on the kind then). -/
def dimContribK (k d : String) : List (String × DimSpec) → ℚ
  | [] => 0
  | p :: rest =>
    (if p.1 = d ∧ k ∈ p.2.kinds then (alistLookup p.2.weights_by_kind k).getD p.2.weight
     else 0) + dimContribK k d rest

/-- The group-key weight function used in the closed form of the score. -/
def keyContrib (rules : RuleSet) (u d : String) (g : String × String × Int) : ℚ :=
  if g.1 = u then dimContribK g.2.1 d rules.dimensions else 0

/-- How many events of a group accumulate: `min(count, cap)` for capped
kinds, all of them otherwise. -/
def keptCount (rules : RuleSet) (g : String × String × Int) (n : Nat) : Nat :=
  match alistLookup (rules.fairness.getD []) g.2.1 with
  | some cap => min n cap
  | none => n

/-- Value of one inner (per-user) score dict at dimension `d` (0 when
absent). -/
def valueDim : List (String × ℚ) → String → ℚ
  | [], _ => 0
  | q :: rest, d => (if q.1 = d then q.2 else 0) + valueDim rest d

/-- Value of the nested scores dict at `(u, d)` (0 when absent). -/
def valueSc : List (String × List (String × ℚ)) → String → String → ℚ
  | [], _, _ => 0
  | p :: rest, u, d => (if p.1 = u then valueDim p.2 d else 0) + valueSc rest u d

/-! ## Concrete fixtures used by the claim theorems -/

/-- A commit event at instant `sec` (UTC-carried) by user `u`. -/
def mkCommit (i : Nat) (u : String) (sec : Int) : ContributionEvent :=
  { id := toString i, kind := "commit", repo_id := "github.com/x/y", user_id := u,
    created_at := { utcSeconds := sec, tzOffsetMinutes := 0 } }

/-- 25 commit events by the same user within the same UTC day. -/
def commits25 : List ContributionEvent :=
  (List.range 25).map (fun i => mkCommit i "u" (i : Int))

/-- Default rules plus exponential decay with a 10-day half-life (what
`load_rules` would produce for such a TOML). -/
def rulesHalfLife10 : RuleSet :=
  { defaultRules with decay_half_life_days := some 10,
                      decay_mode := some "exponential" }

/-- A single commit whose age is exactly 10 days (864000 s) at the reference
instant `0`. -/
def commitTenDaysOld : ContributionEvent := mkCommit 0 "u" (-864000)

/-- A one-dimension rule set with a daily commit cap of 1 (clipping visible
with two events). -/
def capOneRules : RuleSet :=
  { dimensions := [("code", { kinds := ["commit"], weight := 1,
                              weights_by_kind := [("commit", 4/5)] })]
    fairness := some [("commit", 1)] }

/-- Environment with a self-repo penalty of `0.5`
(`OSSMK_SELF_REPO_PENALTY=0.5`). -/
def halfSelfPenaltyEnv : ScoreEnv := { self_repo_penalty := 1/2 }

/-- A commit by `alice` in her own repo (self-repo penalty applies). -/
def aliceOwnRepoCommit : ContributionEvent :=
  { id := "a", kind := "commit", repo_id := "github.com/alice/x",
    user_id := "alice", created_at := ⟨0, 0⟩ }

/-- A commit by `alice` in someone else's repo (no penalty). -/
def aliceOtherRepoCommit : ContributionEvent :=
  { id := "b", kind := "commit", repo_id := "github.com/bob/x",
    user_id := "alice", created_at := ⟨10, 0⟩ }

/-- 23:30 UTC carried as UTC: wall-clock day 0. -/
def lateEventUTC : ContributionEvent := mkCommit 0 "u" 84600

/-- The same absolute instant carried at UTC+01:00: wall-clock day 1. -/
def lateEventPlus1 : ContributionEvent :=
  { id := "1", kind := "commit", repo_id := "github.com/x/y", user_id := "u",
    created_at := { utcSeconds := 84600, tzOffsetMinutes := 60 } }

/-- A dependabot pull-request item as returned by the issues listing. -/
def botIssueItem : IssueItem :=
  { id := "9", hasPullRequest := true, userLogin := some "dependabot[bot]",
    createdAt := ⟨0, 0⟩ }

/-- A wire that answers every attempt with a 500 response. -/
def always500 : Nat → AttemptOutcome := fun _ => .returns 500

/-- An upstream that answers 200 with an ETag on any request. -/
def etagServer200 : Option String → HttpResponse :=
  fun _ => { status := 200, body := "[1]", etag := some "W/abc" }

/-- An upstream that answers 304 iff the request carries
`If-None-Match: W/abc`. -/
def etagServer304 : Option String → HttpResponse :=
  fun h => if h = some "W/abc" then { status := 304, body := "" }
           else { status := 500, body := "boom" }

/-! # Theorems -/

/-! ## Storage: `save_events` (claims C8, C10) -/

theorem insertIgnore_any_mono (db : List EventRow) (r : EventRow)
    (p : EventRow → Bool) (h : db.any p = true) :
    (insertIgnore db r).any p = true := by
  unfold insertIgnore
  split
  · exact h
  · simp [List.any_append, h]

theorem insertIgnore_any_id (db : List EventRow) (r : EventRow) :
    (insertIgnore db r).any (fun r' => r'.id = r.id) = true := by
  unfold insertIgnore
  split
  · assumption
  · simp [List.any_append]

theorem foldl_insertIgnore_any_mono (rows : List EventRow)
    (db : List EventRow) (p : EventRow → Bool) (h : db.any p = true) :
    (rows.foldl insertIgnore db).any p = true := by
  induction rows generalizing db with
  | nil => exact h
  | cons r rest ih => exact ih _ (insertIgnore_any_mono _ _ _ h)

theorem foldl_insertIgnore_has (rows : List EventRow) (db : List EventRow)
    (r : EventRow) (h : r ∈ rows) :
    (rows.foldl insertIgnore db).any (fun r' => r'.id = r.id) = true := by
  induction rows generalizing db with
  | nil => cases h
  | cons r0 rest ih =>
    rw [List.foldl_cons]
    rcases List.mem_cons.mp h with h0 | h0
    · rw [h0]
      exact foldl_insertIgnore_any_mono _ _ _ (insertIgnore_any_id db r0)
    · exact ih _ h0

theorem foldl_insertIgnore_noop (rows : List EventRow) (db : List EventRow)
    (h : ∀ r ∈ rows, db.any (fun r' => r'.id = r.id) = true) :
    rows.foldl insertIgnore db = db := by
  induction rows with
  | nil => rfl
  | cons r rest ih =>
    have h1 : insertIgnore db r = db := by
      unfold insertIgnore
      rw [if_pos (h r (List.mem_cons_self _ _))]
    rw [List.foldl_cons, h1]
    exact ih (fun r' hr' => h r' (List.mem_cons_of_mem _ hr'))

theorem save_events_second_run_rows (db : List EventRow)
    (events : List ContributionEvent) :
    (save_events (save_events db events).1 events).1 = (save_events db events).1 := by
  apply foldl_insertIgnore_noop
  intro r hr
  exact foldl_insertIgnore_has _ _ _ hr

/-- Claim C8: `save_events` is idempotent on stored state — after
`save_events(E)`, running `save_events(E)` again leaves exactly the same
stored event rows (`INSERT OR IGNORE` on the primary key `id` skips every
row the first run made present), for every starting database and event
list. -/
theorem C8_save_events_idempotent (db : List EventRow)
    (events : List ContributionEvent) :
    (save_events (save_events db events).1 events).1 = (save_events db events).1 :=
  save_events_second_run_rows db events

/-- Claim C10: `save_events` always returns the number of events passed in
(`0` for an empty list), not the number of rows newly inserted: a second
identical call returns the same count while the stored rows do not change. -/
theorem C10_save_events_count (db : List EventRow)
    (events : List ContributionEvent) :
    (save_events db events).2 = events.length ∧
    (save_events (save_events db events).1 events).2 = events.length ∧
    (save_events (save_events db events).1 events).1 = (save_events db events).1 :=
  ⟨by simp [save_events], by simp [save_events], save_events_second_run_rows db events⟩

/-! ## Decay is dead code (claim C1) -/

/-- Claim C1 (code bug): with default rules and exponential decay with
`half_life = 10` days, one commit created exactly 10 days before now scores
`code = 0.8`, not the claimed `0.8 * 0.5 = 0.4`: the decay block of
`score_events` references `datetime`, which `score.py` never imports, so it
raises `NameError` on every event and `except Exception: pass` swallows it —
no decay parameter (here: any half-life, mode or window) can influence the
output at all. -/
theorem C1_decay_never_applied :
    score_events rulesHalfLife10 defaultEnv [commitTenDaysOld] =
      [{ user_id := "u", dimension := "code", value := 4/5, window := "all" }] ∧
    (∀ (rules : RuleSet) (env : ScoreEnv) (events : List ContributionEvent)
        (hl wd : Option ℚ) (mode : Option String),
      score_events
        { rules with decay_half_life_days := hl, decay_mode := mode,
                     decay_window_days := wd } env events =
      score_events rules env events) ∧
    (4/5 : ℚ) ≠ 2/5 := by
  refine ⟨by with_unfolding_all decide, ?_, by norm_num⟩
  intro rules env events hl wd mode
  cases rules
  rfl

/-! ## Day keys are carried-zone days, not UTC days (claim C4) -/

/-- Claim C4 counterexample: two events at the same absolute instant
(23:30 UTC of epoch day 0), one carried in UTC and one at UTC+01:00, get
different day keys, and with a daily cap of 1 both accumulate (`code = 1.6`)
instead of the second consuming the same counter. -/
theorem C4_counterexample :
    lateEventUTC.created_at.utcSeconds = lateEventPlus1.created_at.utcSeconds ∧
    dayKey lateEventUTC.created_at ≠ dayKey lateEventPlus1.created_at ∧
    score_events capOneRules defaultEnv [lateEventUTC, lateEventPlus1] =
      [{ user_id := "u", dimension := "code", value := 8/5, window := "all" }] := by
  with_unfolding_all decide

/-- Claim C4 (amended): the day key used for daily clipping is the calendar
date of `created_at` in the zone it carries; only for UTC-carried timestamps
is it the UTC date — two such events share a day key exactly when their
instants fall on the same UTC day. -/
theorem C4_day_key_utc_when_offset_zero (dt₁ dt₂ : PyDatetime)
    (h₁ : dt₁.tzOffsetMinutes = 0) (h₂ : dt₂.tzOffsetMinutes = 0) :
    dayKey dt₁ = dt₁.utcSeconds.fdiv 86400 ∧
    (dayKey dt₁ = dayKey dt₂ ↔
      dt₁.utcSeconds.fdiv 86400 = dt₂.utcSeconds.fdiv 86400) := by
  unfold dayKey
  rw [h₁, h₂]
  simp

/-- Witness for C4's amended theorem at `23:59:59` and `00:00:00` of UTC
day 0. -/
theorem C4_day_key_utc_witness :
    dayKey ⟨0, 0⟩ = (0 : Int).fdiv 86400 ∧
    (dayKey ⟨0, 0⟩ = dayKey ⟨86399, 0⟩ ↔
      (0 : Int).fdiv 86400 = (86399 : Int).fdiv 86400) :=
  C4_day_key_utc_when_offset_zero ⟨0, 0⟩ ⟨86399, 0⟩ rfl rfl

/-! ## Bot filtering (claim C5) -/

/-- Claim C5 (code bug): `fetch_repo_issues_and_prs` emits events for
bot-authored items even with `OSSMK_EXCLUDE_BOTS=1` — it never consults
`is_bot_login` — while `fetch_repo_commits` does drop every bot author.  A
dependabot pull request is emitted with `user_id = "dependabot[bot]"`, which
satisfies the bot predicate. -/
theorem C5_issues_prs_not_bot_filtered :
    fetch_repo_issues_and_prs "o" "r" [botIssueItem] =
      [{ id := "9", kind := "pr", repo_id := "github.com/o/r",
         user_id := "dependabot[bot]", created_at := ⟨0, 0⟩,
         lines_added := 0, lines_removed := 0 }] ∧
    is_bot_login (some "dependabot[bot]") = true ∧
    (∀ (owner name : String) (items : List CommitItem),
      (fetch_repo_commits owner name true items).all
        (fun e => !is_bot_login (some e.user_id)) = true) := by
  refine ⟨by with_unfolding_all decide, by with_unfolding_all decide, ?_⟩
  intro owner name items
  induction items with
  | nil => rfl
  | cons c rest ih =>
    by_cases hb :
        is_bot_login (some (pyOr c.authorLogin (pyOr c.committerLogin "unknown"))) = true
    · simpa [fetch_repo_commits, hb] using ih
    · simpa [fetch_repo_commits, hb] using ih

/-! ## Retry policy of `http_get` (claim C6) -/

/-- Claim C6 counterexample: a 500 response is returned by `http_get` on the
first attempt with no retry and no backoff sleep — tenacity only retries
*raised* `httpx.HTTPError` exceptions, and `client.get` raises no exception
for a 5xx status (`raise_for_status` is called by the caller, outside the
retry). -/
theorem C6_counterexample_500_not_retried :
    http_get always500 = .ok 500 1 [] := rfl

/-- Claim C6 (amended): `http_get` retries only raised `httpx.HTTPError`
exceptions, up to 5 attempts with exponential backoff waits 1 s, 2 s, 4 s,
8 s (formula `max(1, min(2^(n-1), 10))`), re-raising after the 5th failure;
a non-httpx exception propagates immediately; and a response of *any* status
code — 2xx/3xx but equally 4xx/5xx — is returned from the first attempt
without retry. -/
theorem C6_retry_policy :
    (∀ (oc : Nat → AttemptOutcome) (s : Nat),
      oc 1 = .returns s → http_get oc = .ok s 1 []) ∧
    (∀ oc : Nat → AttemptOutcome,
      oc 1 = .raises true → oc 2 = .raises true → oc 3 = .raises true →
      oc 4 = .raises true → oc 5 = .raises true →
      http_get oc = .failed true 5 [1, 2, 4, 8]) ∧
    (∀ oc : Nat → AttemptOutcome,
      oc 1 = .raises false → http_get oc = .failed false 1 []) ∧
    (∀ (oc : Nat → AttemptOutcome) (s : Nat),
      oc 1 = .raises true → oc 2 = .returns s → http_get oc = .ok s 2 [1]) := by
  refine ⟨?_, ?_, ?_, ?_⟩
  · intro oc s h
    simp [http_get, tenacityGo, h]
  · intro oc h1 h2 h3 h4 h5
    simp [http_get, tenacityGo, h1, h2, h3, h4, h5, backoffWait]
    norm_num
  · intro oc h
    simp [http_get, tenacityGo, h]
  · intro oc s h1 h2
    simp [http_get, tenacityGo, h1, h2, backoffWait]

/-- Witness for the amended retry theorem: concrete wires exercising the
no-retry-on-response part and the retry-then-success part. -/
theorem C6_retry_policy_witness :
    http_get (fun _ => .returns 204) = .ok 204 1 [] ∧
    http_get (fun k => if k = 1 then .raises true else .returns 200) =
      .ok 200 2 [1] :=
  ⟨C6_retry_policy.1 _ 204 rfl,
   C6_retry_policy.2.2.2 _ 200 rfl rfl⟩

/-! ## Conditional GET replay (claim C7) -/

theorem cacheGet_cacheSet_self (c : HttpCacheState) (url : String)
    (e : CacheEntry) : cacheGet (cacheSet c url e) url = some e := by
  induction c with
  | nil => simp [cacheGet, cacheSet, List.find?]
  | cons p rest ih =>
    by_cases h : p.1 = url
    · simp [cacheGet, cacheSet, h, List.find?]
    · simpa [cacheGet, cacheSet, h, List.find?] using ih

/-- Claim C7: if a first `_cached_get_json` fetch of a URL (cache miss)
returns 200 with a non-empty `ETag` and writes the cache, then a second
fetch of the same URL sends `If-None-Match` equal to that ETag, and when the
upstream answers 304 the second fetch returns the cached body — the same
payload the first fetch returned — without raising and without touching the
cache. -/
theorem C7_conditional_get_replay (cache0 : HttpCacheState)
    (url E B now1 now2 : String) (lm lk : Option String)
    (server1 server2 : Option String → HttpResponse)
    (h0 : cacheGet cache0 url = none)
    (hE : E ≠ "")
    (h1 : server1 none =
      { status := 200, body := B, etag := some E, lastModified := lm, link := lk })
    (h2 : (server2 (some E)).status = 304) :
    cached_get_json server1 cache0 url now1 =
      (none, .ok (B, cacheSet cache0 url ⟨some E, lm, B, now1⟩)) ∧
    cached_get_json server2 (cacheSet cache0 url ⟨some E, lm, B, now1⟩) url now2 =
      (some E, .ok (B, cacheSet cache0 url ⟨some E, lm, B, now1⟩)) := by
  constructor
  · simp [cached_get_json, h0, h1]
  · simp [cached_get_json, cacheGet_cacheSet_self, hE, h2]

/-- Witness for C7 with a concrete empty cache, ETag `W/abc`, body `[1]` and
mock servers. -/
theorem C7_conditional_get_replay_witness :
    cached_get_json etagServer200 [] "u" "t1" =
      (none, .ok ("[1]", cacheSet [] "u" ⟨some "W/abc", none, "[1]", "t1"⟩)) ∧
    cached_get_json etagServer304 (cacheSet [] "u" ⟨some "W/abc", none, "[1]", "t1"⟩) "u" "t2" =
      (some "W/abc", .ok ("[1]", cacheSet [] "u" ⟨some "W/abc", none, "[1]", "t1"⟩)) :=
  C7_conditional_get_replay [] "u" "W/abc" "[1]" "t1" "t2" none none
    etagServer200 etagServer304 rfl (by decide) rfl rfl

/-! ## `parse_since` clamping (claim C9) -/

/-- The `NNNd` branch of `parse_since`: no clamp is involved. -/
theorem parse_since_days_branch (ip : String → Option IsoDt) (nowSeconds : Int)
    (maxd : Option Nat) (raw : String) (hraw : raw ≠ "")
    (hd : raw.trim.toLower.endsWith "d" = true)
    (hb : raw.trim.toLower.dropRight 1 ≠ "")
    (hdig : (raw.trim.toLower.dropRight 1).all Char.isDigit = true) :
    parse_since ip nowSeconds (some raw) maxd =
      .instant (nowSeconds -
        ((raw.trim.toLower.dropRight 1).toNat?.getD 0 : Int) * 86400) := by
  simp [parse_since, hraw, hd, hb, hdig]

/-- The `NNNh` branch of `parse_since`: no clamp is involved either. -/
theorem parse_since_hours_branch (ip : String → Option IsoDt) (nowSeconds : Int)
    (maxd : Option Nat) (raw : String) (hraw : raw ≠ "")
    (hd : raw.trim.toLower.endsWith "d" = false)
    (hh : raw.trim.toLower.endsWith "h" = true)
    (hb : raw.trim.toLower.dropRight 1 ≠ "")
    (hdig : (raw.trim.toLower.dropRight 1).all Char.isDigit = true) :
    parse_since ip nowSeconds (some raw) maxd =
      .instant (nowSeconds -
        ((raw.trim.toLower.dropRight 1).toNat?.getD 0 : Int) * 3600) := by
  simp [parse_since, hraw, hd, hh, hb, hdig]

/-- The ISO branch of `parse_since` (neither relative suffix applies, the
parser succeeds): the result is clamped to `now − max_days`. -/
theorem parse_since_iso_branch (ip : String → Option IsoDt) (nowSeconds : Int)
    (m : Nat) (raw : String) (dt : IsoDt) (hraw : raw ≠ "")
    (hd : raw.trim.toLower.endsWith "d" = false)
    (hh : raw.trim.toLower.endsWith "h" = false)
    (hp : ip raw.trim.toLower = some dt) :
    parse_since ip nowSeconds (some raw) (some m) =
      .instant
        (if dt.wallSeconds - (dt.tzOffsetMinutes.getD 0) * 60 <
            nowSeconds - (m : Int) * 86400
         then nowSeconds - (m : Int) * 86400
         else dt.wallSeconds - (dt.tzOffsetMinutes.getD 0) * 60) := by
  simp [parse_since, hraw, hd, hh, hp]

/-- Claim C9 counterexample: `parse_since("365d", max_days=180)` resolves to
`now − 365 days`, strictly earlier than `now − max_days` — the clamp is not
applied on the relative branch. -/
theorem C9_counterexample_relative_not_clamped :
    parse_since (fun _ => none) 0 (some "365d") (some 180) =
      .instant (-31536000) ∧
    (-31536000 : Int) < 0 - 180 * 86400 := by
  constructor
  · rw [parse_since_days_branch (fun _ => none) 0 (some 180) "365d"
      (by with_unfolding_all decide) (by with_unfolding_all decide)
      (by with_unfolding_all decide) (by with_unfolding_all decide)]
    have hn : (("365d".trim.toLower.dropRight 1).toNat?.getD 0 : Int) = 365 := by
      with_unfolding_all decide
    rw [hn]
    norm_num
  · decide

/-- Claim C9 (amended): relative `NNNd`/`NNNh` inputs resolve against the
current UTC instant and are *not* clamped; only an absolute parseable
ISO-8601 input is clamped to no earlier than `now − max_days`, with a naive
timestamp defaulting to UTC (`tzOffset` read as `0`). -/
theorem C9_parse_since_clamp (ip : String → Option IsoDt) (nowSeconds : Int)
    (maxd : Option Nat) (m : Nat) (raw : String) (dt : IsoDt)
    (hraw : raw ≠ "") :
    ((raw.trim.toLower.endsWith "d" = true) →
      (raw.trim.toLower.dropRight 1 ≠ "") →
      (raw.trim.toLower.dropRight 1).all Char.isDigit = true →
      parse_since ip nowSeconds (some raw) maxd =
        .instant (nowSeconds -
          ((raw.trim.toLower.dropRight 1).toNat?.getD 0 : Int) * 86400)) ∧
    ((raw.trim.toLower.endsWith "d" = false) →
      (raw.trim.toLower.endsWith "h" = true) →
      (raw.trim.toLower.dropRight 1 ≠ "") →
      (raw.trim.toLower.dropRight 1).all Char.isDigit = true →
      parse_since ip nowSeconds (some raw) maxd =
        .instant (nowSeconds -
          ((raw.trim.toLower.dropRight 1).toNat?.getD 0 : Int) * 3600)) ∧
    ((raw.trim.toLower.endsWith "d" = false) →
      (raw.trim.toLower.endsWith "h" = false) →
      ip raw.trim.toLower = some dt →
      parse_since ip nowSeconds (some raw) (some m) =
        .instant
          (if dt.wallSeconds - (dt.tzOffsetMinutes.getD 0) * 60 <
              nowSeconds - (m : Int) * 86400
           then nowSeconds - (m : Int) * 86400
           else dt.wallSeconds - (dt.tzOffsetMinutes.getD 0) * 60) ∧
      (match parse_since ip nowSeconds (some raw) (some m) with
       | .instant t => nowSeconds - (m : Int) * 86400 ≤ t
       | _ => False)) := by
  refine ⟨?_, ?_, ?_⟩
  · intro hd hb hdig
    exact parse_since_days_branch ip nowSeconds maxd raw hraw hd hb hdig
  · intro hd hh hb hdig
    exact parse_since_hours_branch ip nowSeconds maxd raw hraw hd hh hb hdig
  · intro hd hh hp
    have hmain := parse_since_iso_branch ip nowSeconds m raw dt hraw hd hh hp
    refine ⟨hmain, ?_⟩
    rw [hmain]
    dsimp only
    split <;> omega

set_option maxRecDepth 4000 in
/-- Witness for C9's amended theorem: `"30d"` resolves to `now − 30 days`
and `"48h"` to `now − 48 hours` (both unclamped), while an old ISO instant
is clamped to `now − 180 days`. -/
theorem C9_parse_since_clamp_witness :
    parse_since (fun _ => none) 1700000000 (some "30d") (some 180) =
      .instant (1700000000 - 30 * 86400) ∧
    parse_since (fun _ => none) 1700000000 (some "48h") (some 180) =
      .instant (1700000000 - 48 * 3600) ∧
    parse_since (fun s => if s = "2000-01-01" then some ⟨946684800, none⟩ else none)
        1700000000 (some "2000-01-01") (some 180) =
      .instant (1700000000 - 180 * 86400) := by
  refine ⟨?_, ?_, ?_⟩
  · have h := (C9_parse_since_clamp (fun _ => none) 1700000000 (some 180) 180
      "30d" ⟨0, none⟩ (by decide)).1
      (by with_unfolding_all decide) (by with_unfolding_all decide)
      (by with_unfolding_all decide)
    rw [h]
    have e2 : ("30d".trim.toLower.dropRight 1).toNat?.getD 0 = 30 := by
      with_unfolding_all decide
    rw [e2]
    norm_num
  · have h := (C9_parse_since_clamp (fun _ => none) 1700000000 (some 180) 180
      "48h" ⟨0, none⟩ (by decide)).2.1
      (by with_unfolding_all decide) (by with_unfolding_all decide)
      (by with_unfolding_all decide) (by with_unfolding_all decide)
    rw [h]
    have e2 : ("48h".trim.toLower.dropRight 1).toNat?.getD 0 = 48 := by
      with_unfolding_all decide
    rw [e2]
    norm_num
  · have e : "2000-01-01".trim.toLower = "2000-01-01" := by
      with_unfolding_all decide
    have h := (C9_parse_since_clamp
      (fun s => if s = "2000-01-01" then some ⟨946684800, none⟩ else none)
      1700000000 (some 180) 180 "2000-01-01" ⟨946684800, none⟩
      (by decide)).2.2
      (by with_unfolding_all decide) (by with_unfolding_all decide)
      (by rw [e]; simp)
    rw [h.1]
    norm_num

/-! ## Clipping refinement (claim C2) -/

theorem scores_foldl_eq_kept (rules : RuleSet) (env : ScoreEnv)
    (l : List ContributionEvent) :
    ∀ (sc : List (String × List (String × ℚ))) (cs : Counters),
    (l.foldl (processEvent rules env) ⟨sc, cs⟩).scores =
      (keptAux rules engineDay l cs).foldl (accumDims rules env) sc := by
  induction l with
  | nil => intro sc cs; rfl
  | cons e rest ih =>
    intro sc cs
    rcases hfair : alistLookup (rules.fairness.getD []) e.kind with _ | cap
    · simp only [List.foldl_cons, processEvent, keptAux, hfair]
      exact ih _ _
    · simp only [List.foldl_cons, processEvent, keptAux, hfair, keyOf, engineDay]
      by_cases hc :
          cap < getCounter cs (e.user_id, e.kind, dayKey e.created_at) + 1
      · simp only [if_pos hc]
        exact ih sc _
      · simp only [if_neg hc, List.foldl_cons]
        exact ih _ _

/-- `score_events` equals the unclipped accumulation over the clip-surviving
events (engine day keys). -/
theorem score_events_eq_noclip_kept (rules : RuleSet) (env : ScoreEnv)
    (l : List ContributionEvent) :
    score_events rules env l =
      score_events_noclip rules env (keptEvents rules engineDay l) := by
  unfold score_events score_events_noclip keptEvents
  rw [scores_foldl_eq_kept]

theorem keptAux_day_congr (rules : RuleSet)
    (dayOf dayOf' : ContributionEvent → Int) (l : List ContributionEvent)
    (h : ∀ e ∈ l, dayOf e = dayOf' e) :
    ∀ cs : Counters, keptAux rules dayOf l cs = keptAux rules dayOf' l cs := by
  induction l with
  | nil => intro cs; rfl
  | cons e rest ih =>
    intro cs
    have he : dayOf e = dayOf' e := h e (List.mem_cons_self _ _)
    have hrest : ∀ e' ∈ rest, dayOf e' = dayOf' e' :=
      fun e' h' => h e' (List.mem_cons_of_mem _ h')
    rcases hfair : alistLookup (rules.fairness.getD []) e.kind with _ | cap
    · simp only [keptAux, hfair]
      rw [ih hrest]
    · simp only [keptAux, hfair, he]
      by_cases hc :
          cap < getCounter cs (e.user_id, e.kind, dayOf' e) + 1
      · simp only [if_pos hc]
        exact ih hrest _
      · simp only [if_neg hc, ih hrest]

set_option maxRecDepth 10000 in
/-- Claim C2: 25 same-day commits by one user score `code = 20 · 0.8 = 16`
as the single emitted record; in general, for UTC-carried timestamps,
`score_events` equals the unclipped accumulation over the events whose
occurrence index within their `(user, kind, UTC day)` group is within the
global cap — the clip decision is per event, before any dimension
accumulates. -/
theorem C2_clipping :
    score_events defaultRules defaultEnv commits25 =
      [{ user_id := "u", dimension := "code", value := 16, window := "all" }] ∧
    (∀ (rules : RuleSet) (env : ScoreEnv) (l : List ContributionEvent),
      (∀ e ∈ l, e.created_at.tzOffsetMinutes = 0) →
      score_events rules env l =
        score_events_noclip rules env (keptEvents rules utcDay l)) := by
  constructor
  · with_unfolding_all decide
  · intro rules env l h
    rw [score_events_eq_noclip_kept]
    unfold keptEvents
    rw [keptAux_day_congr rules engineDay utcDay l]
    intro e he
    have h0 := h e he
    simp [engineDay, utcDay, dayKey, h0]

/-- Witness for C2's general statement at the 25-commit fixture. -/
theorem C2_clipping_witness :
    score_events defaultRules defaultEnv commits25 =
      score_events_noclip defaultRules defaultEnv
        (keptEvents defaultRules utcDay commits25) :=
  C2_clipping.2 defaultRules defaultEnv commits25 (by with_unfolding_all decide)

/-! ## No sort, and order dependence of clipping (claim C3) -/

theorem valueOf_append (a b : List ScoreRow) (u d : String) :
    valueOf (a ++ b) u d = valueOf a u d + valueOf b u d := by
  simp [valueOf, List.filter_append]

theorem valueOf_userBlock (uu : String) (dims : List (String × ℚ))
    (u d : String) :
    valueOf (dims.map (fun q => ⟨uu, q.1, q.2, "all"⟩)) u d =
      if uu = u then valueDim dims d else 0 := by
  induction dims with
  | nil => by_cases h : uu = u <;> simp [valueOf, valueDim, h]
  | cons q rest ih =>
    by_cases hu : uu = u <;> by_cases hd : q.1 = d <;>
      simp [valueOf, valueDim, hu, hd] at ih ⊢ <;> simp [ih] <;> ring

theorem valueOf_flatten (sc : List (String × List (String × ℚ)))
    (u d : String) :
    valueOf (flattenScores sc) u d = valueSc sc u d := by
  induction sc with
  | nil => rfl
  | cons p rest ih =>
    have : flattenScores (p :: rest) =
        (p.2.map (fun q => ⟨p.1, q.1, q.2, "all"⟩)) ++ flattenScores rest := by
      simp [flattenScores]
    rw [this, valueOf_append, valueOf_userBlock, ih, valueSc]

theorem valueDim_addDim (l : List (String × ℚ)) (d' : String) (w : ℚ)
    (d : String) :
    valueDim (addDim l d' w) d = valueDim l d + if d' = d then w else 0 := by
  induction l with
  | nil => by_cases h : d' = d <;> simp [addDim, valueDim, h]
  | cons q rest ih =>
    rcases q with ⟨qd, qv⟩
    simp only [addDim]
    by_cases h1 : qd = d'
    · rw [if_pos h1]
      by_cases h2 : d' = d
      · rw [h1, h2]
        simp [valueDim]
        ring
      · have h3 : qd ≠ d := by rw [h1]; exact h2
        simp [valueDim, h2, h3]
    · rw [if_neg h1]
      by_cases h2 : qd = d <;> simp [valueDim, h2, ih] <;> ring

theorem valueSc_addScore (sc : List (String × List (String × ℚ)))
    (u' d' : String) (w : ℚ) (u d : String) :
    valueSc (addScore sc u' d' w) u d =
      valueSc sc u d + if u' = u ∧ d' = d then w else 0 := by
  induction sc with
  | nil =>
    by_cases hu : u' = u <;> by_cases hd : d' = d <;>
      simp [addScore, valueSc, valueDim, hu, hd]
  | cons p rest ih =>
    rcases p with ⟨pu, pdims⟩
    simp only [addScore]
    by_cases h1 : pu = u'
    · rw [if_pos h1]
      by_cases hu : u' = u
      · have h2 : pu = u := h1.trans hu
        simp [valueSc, h2, hu, valueDim_addDim]
        ring
      · have h2 : pu ≠ u := by rw [h1]; exact hu
        simp [valueSc, h2, hu]
    · rw [if_neg h1]
      by_cases h2 : pu = u <;> simp [valueSc, h2, ih] <;> ring

theorem valueSc_dimsFold (env : ScoreEnv) (e : ContributionEvent)
    (u d : String) (dims : List (String × DimSpec)) :
    ∀ sc : List (String × List (String × ℚ)),
    valueSc (dims.foldl
      (fun sc p =>
        if e.kind ∈ p.2.kinds then addScore sc e.user_id p.1 (contribWeight env p.2 e)
        else sc) sc) u d =
      valueSc sc u d + (if e.user_id = u then dimContrib env e d dims else 0) := by
  induction dims with
  | nil => intro sc; by_cases hu : e.user_id = u <;> simp [dimContrib, hu]
  | cons p rest ih =>
    intro sc
    rw [List.foldl_cons, ih]
    by_cases hk : e.kind ∈ p.2.kinds
    · rw [if_pos hk, valueSc_addScore]
      by_cases hu : e.user_id = u <;> by_cases hd : p.1 = d <;>
        simp [dimContrib, hk, hu, hd] <;> ring
    · rw [if_neg hk]
      by_cases hu : e.user_id = u <;> simp [dimContrib, hk, hu]

theorem valueSc_accumDims (rules : RuleSet) (env : ScoreEnv)
    (sc : List (String × List (String × ℚ))) (e : ContributionEvent)
    (u d : String) :
    valueSc (accumDims rules env sc e) u d =
      valueSc sc u d + contribOfEvent rules env e u d := by
  unfold accumDims contribOfEvent
  exact valueSc_dimsFold env e u d rules.dimensions sc

theorem valueSc_eventsFold (rules : RuleSet) (env : ScoreEnv) (u d : String)
    (m : List ContributionEvent) :
    ∀ sc : List (String × List (String × ℚ)),
    valueSc (m.foldl (accumDims rules env) sc) u d =
      valueSc sc u d + ((m.map (fun e => contribOfEvent rules env e u d)).sum) := by
  induction m with
  | nil => intro sc; simp
  | cons e rest ih =>
    intro sc
    rw [List.foldl_cons, ih, valueSc_accumDims]
    simp [List.map_cons, List.sum_cons]
    ring

/-- The value of the unclipped accumulation is the sum of the per-event
contributions. -/
theorem valueOf_noclip (rules : RuleSet) (env : ScoreEnv)
    (m : List ContributionEvent) (u d : String) :
    valueOf (score_events_noclip rules env m) u d =
      (m.map (fun e => contribOfEvent rules env e u d)).sum := by
  unfold score_events_noclip
  rw [valueOf_flatten, valueSc_eventsFold]
  simp [valueSc]

theorem contribWeight_no_penalty (env : ScoreEnv) (spec : DimSpec)
    (e : ContributionEvent) (hp : 1 ≤ env.self_repo_penalty)
    (ho : env.user_orgs = []) :
    contribWeight env spec e =
      (alistLookup spec.weights_by_kind e.kind).getD spec.weight := by
  have h1 : ¬(env.self_repo_penalty < 1) := not_lt.mpr hp
  simp [contribWeight, h1, ho]

theorem dimContrib_no_penalty (env : ScoreEnv) (e : ContributionEvent)
    (d : String) (dims : List (String × DimSpec))
    (hp : 1 ≤ env.self_repo_penalty) (ho : env.user_orgs = []) :
    dimContrib env e d dims = dimContribK e.kind d dims := by
  induction dims with
  | nil => rfl
  | cons p rest ih =>
    simp only [dimContrib, dimContribK, ih,
      contribWeight_no_penalty env p.2 e hp ho]

theorem contribOfEvent_eq_keyContrib (rules : RuleSet) (env : ScoreEnv)
    (e : ContributionEvent) (u d : String) (dayOf : ContributionEvent → Int)
    (hp : 1 ≤ env.self_repo_penalty) (ho : env.user_orgs = []) :
    contribOfEvent rules env e u d = keyContrib rules u d (keyBy dayOf e) := by
  unfold contribOfEvent keyContrib keyBy
  simp [dimContrib_no_penalty env e d rules.dimensions hp ho]

theorem getCounter_setCounter (cs : Counters) (k : String × String × Int)
    (v : Nat) (g : String × String × Int) :
    getCounter (setCounter cs k v) g = if g = k then v else getCounter cs g := by
  induction cs with
  | nil =>
    by_cases h : g = k
    · simp [getCounter, setCounter, List.find?, h]
    · have h' : ¬(k = g) := fun hk => h hk.symm
      simp [getCounter, setCounter, List.find?, h, h']
  | cons p rest ih =>
    rcases p with ⟨pk, pv⟩
    simp only [setCounter]
    by_cases h1 : pk = k
    · rw [if_pos h1]
      by_cases h2 : g = k
      · have hpg : pk = g := h1.trans h2.symm
        simp [getCounter, List.find?, hpg, h2]
      · have hpg : ¬(pk = g) := fun hh => h2 (hh.symm.trans h1)
        simp [getCounter, List.find?, hpg, h2]
    · rw [if_neg h1]
      by_cases h2 : pk = g
      · have h3 : ¬(g = k) := fun hh => h1 (h2.trans hh)
        simp [getCounter, List.find?, h2, h3]
      · have hstep : getCounter ((pk, pv) :: setCounter rest k v) g =
            getCounter (setCounter rest k v) g := by
          simp [getCounter, List.find?, h2]
        have hstep2 : getCounter ((pk, pv) :: rest) g = getCounter rest g := by
          simp [getCounter, List.find?, h2]
        rw [hstep, ih, hstep2]

theorem keptAux_sublist (rules : RuleSet) (dayOf : ContributionEvent → Int)
    (l : List ContributionEvent) :
    ∀ cs : Counters, (keptAux rules dayOf l cs).Sublist l := by
  induction l with
  | nil => intro cs; simp [keptAux]
  | cons e rest ih =>
    intro cs
    rcases hke : alistLookup (rules.fairness.getD []) e.kind with _ | cap
    · simp only [keptAux, hke]
      exact (ih cs).cons₂ e
    · simp only [keptAux, hke]
      split

      · exact (ih _).cons e
      · exact (ih _).cons₂ e

theorem min_sub_drop (m n cap : Nat) (h : cap < m + 1) :
    min (m + 1 + n) cap - min (m + 1) cap = min (m + (n + 1)) cap - min m cap := by
  omega

theorem min_sub_keep (m n cap : Nat) (h : ¬(cap < m + 1)) :
    min (m + 1 + n) cap - min (m + 1) cap + 1 = min (m + (n + 1)) cap - min m cap := by
  omega

theorem keptAux_count (rules : RuleSet) (dayOf : ContributionEvent → Int)
    (g : String × String × Int) (l : List ContributionEvent) :
    ∀ cs : Counters,
    ((keptAux rules dayOf l cs).map (keyBy dayOf)).count g =
      (match alistLookup (rules.fairness.getD []) g.2.1 with
       | some cap =>
         min (getCounter cs g + ((l.map (keyBy dayOf)).count g)) cap -
           min (getCounter cs g) cap
       | none => (l.map (keyBy dayOf)).count g) := by
  induction l with
  | nil =>
    intro cs
    rcases alistLookup (rules.fairness.getD []) g.2.1 with _ | cap <;>
      simp [keptAux]
  | cons e rest ih =>
    intro cs
    by_cases hg : keyBy dayOf e = g
    · have hg' : (e.user_id, e.kind, dayOf e) = g := hg
      have hkind : g.2.1 = e.kind := by rw [← hg']
      rcases hke : alistLookup (rules.fairness.getD []) e.kind with _ | cap
      · have hkg : alistLookup (rules.fairness.getD []) g.2.1 = Option.none := by
          rw [hkind, hke]
        simp [keptAux, hke, hkg, List.count_cons, hg, ih]
      · have hkg : alistLookup (rules.fairness.getD []) g.2.1 = some cap := by
          rw [hkind, hke]
        simp only [keptAux, hke]
        rw [hg']
        have hcnt : getCounter (setCounter cs g (getCounter cs g + 1)) g =
            getCounter cs g + 1 := by
          rw [getCounter_setCounter, if_pos rfl]
        by_cases hc : cap < getCounter cs g + 1
        · rw [if_pos hc, ih]
          simp only [hkg, hcnt, List.map_cons]
          rw [hg]
          simpa [List.count_cons] using
            min_sub_drop (getCounter cs g) ((rest.map (keyBy dayOf)).count g) cap hc
        · rw [if_neg hc]
          simp only [List.map_cons]
          rw [hg, List.count_cons, ih]
          simp only [hkg, hcnt]
          simpa [List.count_cons] using
            min_sub_keep (getCounter cs g) ((rest.map (keyBy dayOf)).count g) cap hc
    · have hg2 : ¬(g = keyBy dayOf e) := fun h => hg h.symm
      rcases hke : alistLookup (rules.fairness.getD []) e.kind with _ | cap
      · simp only [keptAux, hke, List.map_cons]
        rw [List.count_cons, ih]
        rcases hkg : alistLookup (rules.fairness.getD []) g.2.1 with _ | capg
        · simp [hkg, List.count_cons, hg, hg2]
        · simp [hkg, List.count_cons, hg, hg2]
      · have hcnt : getCounter (setCounter cs (e.user_id, e.kind, dayOf e)
            (getCounter cs (e.user_id, e.kind, dayOf e) + 1)) g =
            getCounter cs g := by
          rw [getCounter_setCounter, if_neg (fun h => hg h.symm)]
        simp only [keptAux, hke]
        by_cases hc : cap < getCounter cs (e.user_id, e.kind, dayOf e) + 1
        · rw [if_pos hc, ih]
          rcases hkg : alistLookup (rules.fairness.getD []) g.2.1 with _ | capg
          · simp [hkg, hcnt, List.count_cons, hg, hg2]
          · simp [hkg, hcnt, List.count_cons, hg, hg2]
        · rw [if_neg hc]
          simp only [List.map_cons]
          rw [List.count_cons, ih]
          rcases hkg : alistLookup (rules.fairness.getD []) g.2.1 with _ | capg
          · simp [hkg, hcnt, List.count_cons, hg, hg2]
          · simp [hkg, hcnt, List.count_cons, hg, hg2]

theorem count_lawful_eq {α : Type} [BEq α] [LawfulBEq α] [inst : DecidableEq α]
    (a : α) (l : List α) :
    l.count a = @List.count α (@instBEqOfDecidableEq α inst) a l := by
  induction l with
  | nil => rfl
  | cons b t ih =>
    rw [List.count_cons, @List.count_cons α (@instBEqOfDecidableEq α inst), ih]
    congr 1
    by_cases h : a = b
    · subst h
      simp [@beq_self_eq_true α (@instBEqOfDecidableEq α inst)]
    · have hba : ¬(b = a) := fun hh => h hh.symm
      have h2 : (b == a) = false := beq_eq_false_iff_ne.mpr hba
      have h3 : (@BEq.beq α (@instBEqOfDecidableEq α inst) b a) = false := by
        simp [instBEqOfDecidableEq, hba]
      rw [h2, h3]

/-- The from-fresh-counters instance of `keptAux_count`. -/
theorem keptEvents_count (rules : RuleSet) (dayOf : ContributionEvent → Int)
    (g : String × String × Int) (l : List ContributionEvent) :
    ((keptEvents rules dayOf l).map (keyBy dayOf)).count g =
      keptCount rules g ((l.map (keyBy dayOf)).count g) := by
  rw [keptEvents, keptAux_count]
  unfold keptCount
  have h0 : getCounter [] g = 0 := rfl
  rcases alistLookup (rules.fairness.getD []) g.2.1 with _ | cap
  · rfl
  · rw [h0]
    simp

/-- Closed form of the per-cell score when the penalty knobs are inactive:
a permutation-invariant sum over the distinct `(user, kind, day)` groups. -/
theorem score_value_closed_form (rules : RuleSet) (env : ScoreEnv)
    (l : List ContributionEvent) (u d : String)
    (hp : 1 ≤ env.self_repo_penalty) (ho : env.user_orgs = []) :
    valueOf (score_events rules env l) u d =
      ∑ g ∈ (l.map (keyBy engineDay)).toFinset,
        (keptCount rules g ((l.map (keyBy engineDay)).count g)) •
          keyContrib rules u d g := by
  rw [score_events_eq_noclip_kept, valueOf_noclip]
  have hmap : (keptEvents rules engineDay l).map
      (fun e => contribOfEvent rules env e u d) =
      ((keptEvents rules engineDay l).map (keyBy engineDay)).map
        (keyContrib rules u d) := by
    rw [List.map_map]
    exact List.map_congr_left (fun e _ =>
      contribOfEvent_eq_keyContrib rules env e u d engineDay hp ho)
  rw [hmap, Finset.sum_list_map_count]
  have hsub : ((keptEvents rules engineDay l).map (keyBy engineDay)).toFinset ⊆
      (l.map (keyBy engineDay)).toFinset := by
    intro x hx
    simp only [List.mem_toFinset] at hx ⊢
    exact ((keptAux_sublist rules engineDay l []).map (keyBy engineDay)).subset hx
  rw [Finset.sum_subset hsub]
  · apply Finset.sum_congr rfl
    intro g _
    rw [← count_lawful_eq g ((keptEvents rules engineDay l).map (keyBy engineDay)),
      keptEvents_count]
  · intro g _ hng
    simp only [List.mem_toFinset] at hng
    rw [← count_lawful_eq g ((keptEvents rules engineDay l).map (keyBy engineDay)),
      List.count_eq_zero.mpr hng, zero_smul]

/-- Claim C3 counterexample: `score_events` does not sort — with a daily cap
of 1 and a self-repo penalty of 0.5, swapping the two events changes which
one is clipped, and the `code` value differs (`0.4` vs `0.8`) across a
permutation of the same event list. -/
theorem C3_counterexample_order_dependent :
    valueOf (score_events capOneRules halfSelfPenaltyEnv
      [aliceOwnRepoCommit, aliceOtherRepoCommit]) "alice" "code" = 2/5 ∧
    valueOf (score_events capOneRules halfSelfPenaltyEnv
      [aliceOtherRepoCommit, aliceOwnRepoCommit]) "alice" "code" = 4/5 ∧
    [aliceOwnRepoCommit, aliceOtherRepoCommit].Perm
      [aliceOtherRepoCommit, aliceOwnRepoCommit] ∧
    (2/5 : ℚ) ≠ 4/5 := by
  refine ⟨by with_unfolding_all decide, by with_unfolding_all decide, ?_, by norm_num⟩
  exact List.Perm.swap _ _ _

/-- Claim C3 (amended): `score_events` does not sort its input, and its
output is *not* permutation-invariant in general (see the counterexample);
it is value-equal per `(user, dimension)` across permutations whenever the
self-repo and org penalties are inactive — in particular under the default
environment — because then every event of a `(user, kind, day)` group
contributes the same weight and only `min(count, cap)` many accumulate. -/
theorem C3_perm_invariant_without_penalties (rules : RuleSet) (env : ScoreEnv)
    (l l' : List ContributionEvent) (u d : String)
    (hp : 1 ≤ env.self_repo_penalty) (ho : env.user_orgs = [])
    (hperm : l.Perm l') :
    valueOf (score_events rules env l) u d =
      valueOf (score_events rules env l') u d := by
  rw [score_value_closed_form rules env l u d hp ho,
    score_value_closed_form rules env l' u d hp ho]
  have hm : (l.map (keyBy engineDay)).Perm (l'.map (keyBy engineDay)) :=
    hperm.map _
  rw [List.toFinset_eq_of_perm _ _ hm]
  apply Finset.sum_congr rfl
  intro g _
  rw [count_lawful_eq g (l.map (keyBy engineDay)),
    count_lawful_eq g (l'.map (keyBy engineDay)), hm.count_eq]

/-- Witness for the amended C3 theorem: the two orders of the counterexample
pair score equally once the penalty is off (both events then weigh 0.8 and
the cap keeps exactly one). -/
theorem C3_perm_invariant_witness :
    valueOf (score_events capOneRules defaultEnv
        [aliceOwnRepoCommit, aliceOtherRepoCommit]) "alice" "code" =
      valueOf (score_events capOneRules defaultEnv
        [aliceOtherRepoCommit, aliceOwnRepoCommit]) "alice" "code" :=
  C3_perm_invariant_without_penalties capOneRules defaultEnv _ _ "alice" "code"
    (by norm_num [defaultEnv]) rfl (List.Perm.swap _ _ _)

end OssMK
